import Mathlib

/-!
Verification development for the hotchkiss-content-gen ingestion pipeline.

The Python sources are shallowly embedded as executable Lean definitions:

* `split_text_into_chunks` (generate_embeddings.py, lines 88-132): the
  paragraph-aggregating chunker.  The external tokenizer (tiktoken) is
  modelled as an abstract token-counting function `tok : String → Nat`;
  the regex split on blank lines (`re.split(r'\n\s*\n', text)`) and
  Python's `str.strip` are embedded faithfully over character lists.
* `split_text` (embed_to_supabase.py, lines 74-106): the token-precise
  chunker.  The external langchain `TokenTextSplitter` is embedded as a
  sliding window of 400 tokens with stride 350 over the token stream of
  an abstract encoder/decoder pair `Tokzr`.
* `create_embedding` (embed_to_supabase.py, lines 108-183): the retry
  loop, with the HTTP layer abstracted as an oracle from attempt number
  to response, and the `time.sleep` calls recorded in a trace.
* `upsert_chunks` (embed_to_supabase.py, lines 222-267 and
  generate_embeddings.py, lines 179-209): the external store with its
  UNIQUE(url, chunk_idx) key is modelled as a finite map from key to row.
* `main_html` (crawl_hotchkiss.py, lines 13-28): BeautifulSoup documents
  are modelled as a tree of elements with tag, id and class attributes.
-/

/-- Python `\s` for the default `re` and `str.strip`: space, tab,
newline, carriage return, vertical tab, form feed. -/
def pyIsSpace (c : Char) : Bool :=
  c = ' ' || c = '\t' || c = '\n' || c = '\r' || c = '\x0b' || c = '\x0c'

/-- Python `str.strip()` on a character list: drop whitespace from both ends. -/
def pyStripChars (l : List Char) : List Char :=
  ((l.dropWhile pyIsSpace).reverse.dropWhile pyIsSpace).reverse

/-- Python `str.strip()`. -/
def pyStrip (s : String) : String :=
  String.mk (pyStripChars s.data)

/-- Helper for the greedy regex match of `\n\s*\n`: the remainder after
the last newline of `ws`, when `ws` contains one. -/
def lastNl : List Char → Option (List Char)
  | [] => none
  | c :: cs =>
    match lastNl cs with
    | some b => some b
    | none => if c = '\n' then some cs else none

/-- After an initial `'\n'` was consumed, try to finish the separator
`\n\s*\n` greedily: the whitespace run that follows must contain another
newline, and the match extends to the last newline of that run.  Returns
the rest of the input after the match. -/
def sepAfter (rest : List Char) : Option (List Char) :=
  match lastNl (rest.takeWhile pyIsSpace) with
  | some b => some (b ++ rest.dropWhile pyIsSpace)
  | none => none

/-- `re.split(r'\n\s*\n', text)` over characters, fuelled so that the
definition is structurally recursive (fuel `=` input length always
suffices; the fuel-exhausted branch is unreachable then). -/
def splitBlank (fuel : Nat) (acc : List Char) (l : List Char) : List (List Char) :=
  match fuel, l with
  | _, [] => [acc.reverse]
  | 0, rest => [acc.reverse ++ rest]
  | fuel + 1, c :: rest =>
    if c = '\n' then
      match sepAfter rest with
      | some rest2 => acc.reverse :: splitBlank fuel [] rest2
      | none => splitBlank fuel (c :: acc) rest
    else splitBlank fuel (c :: acc) rest

/-- generate_embeddings.py lines 97-101: remove `'\r'`, split on blank
lines, strip each piece and drop empty pieces. -/
def paragraphs (text : String) : List String :=
  let cleaned := text.data.filter fun c => c ≠ '\r'
  (((splitBlank cleaned.length [] cleaned).map pyStripChars).filter
      fun p => p ≠ []).map String.mk

/-- Loop state of `split_text_into_chunks`: emitted chunks (each a list
of paragraphs), the accumulating chunk, and its tracked token count. -/
structure ChState where
  chunks : List (List String)
  cur : List String
  cnt : Nat

/-- One iteration of the paragraph loop of generate_embeddings.py lines
107-126: pre-emptively flush when appending would exceed `M` and the
accumulator is non-empty, append the paragraph, then flush as soon as
the tracked count reaches the target `T`. -/
def chStep (tok : String → Nat) (T M : Nat) (st : ChState) (p : String) : ChState :=
  let tp := tok p
  let st1 :=
    if M < st.cnt + tp ∧ st.cur ≠ [] then
      ChState.mk (st.chunks ++ [st.cur]) [] 0
    else st
  let cur1 := st1.cur ++ [p]
  let cnt1 := st1.cnt + tp
  if T ≤ cnt1 then ChState.mk (st1.chunks ++ [cur1]) [] 0
  else ChState.mk st1.chunks cur1 cnt1

/-- generate_embeddings.py lines 128-130: emit the leftover accumulator. -/
def chFinish (st : ChState) : List (List String) :=
  if st.cur ≠ [] then st.chunks ++ [st.cur] else st.chunks

/-- The paragraph-aggregation loop of `split_text_into_chunks`, kept at
the level of paragraph lists (a chunk is the list of paragraphs later
joined by a single space). -/
def chunkParas (tok : String → Nat) (T M : Nat) (ps : List String) : List (List String) :=
  chFinish (ps.foldl (chStep tok T M) (ChState.mk [] [] 0))

/-- The token count the loop tracks for a chunk: the sum of the token
counts of its paragraphs (`current_token_count` in the source). -/
def chunkTokens (tok : String → Nat) (ch : List String) : Nat :=
  (ch.map tok).sum

/-- generate_embeddings.py lines 88-132, `split_text_into_chunks`, with
`TARGET_TOKENS_PER_CHUNK = 400` and `MAX_TOKENS_PER_CHUNK = 500`. -/
def split_text_into_chunks (tok : String → Nat) (text : String) : List String :=
  if pyStrip text = "" then []
  else (chunkParas tok 400 500 (paragraphs text)).map (String.intercalate " ")

/-- Abstract tokenizer collaborator of embed_to_supabase.py: an encoder
to a token stream and the matching decoder (tiktoken `cl100k_base`). -/
structure Tokzr where
  encode : String → List Nat
  decode : List Nat → String

/-- The langchain `TokenTextSplitter` (external collaborator of
embed_to_supabase.py lines 84-91): sliding windows of `size` tokens with
step `stride = size - overlap` over the encoded stream, fuelled for
structural recursion (fuel `= ` stream length suffices). -/
def tokenWindows (size stride : Nat) : Nat → List Nat → List (List Nat)
  | _, [] => []
  | 0, _ => []
  | fuel + 1, ids => ids.take size :: tokenWindows size stride fuel (ids.drop stride)

/-- `TokenTextSplitter(chunk_size=400, chunk_overlap=50).split_text`. -/
def tts_split_text (tk : Tokzr) (text : String) : List String :=
  (tokenWindows 400 350 (tk.encode text).length (tk.encode text)).map tk.decode

/-- One result entry of `split_text`: `{'text': chunk, 'tokens': token_count}`. -/
structure SChunk where
  text : String
  tokens : Nat
deriving DecidableEq

/-- embed_to_supabase.py lines 74-106, `split_text`: guard only on the
empty string, split with the token splitter, recount tokens per chunk
and keep only chunks of at most 450 tokens. -/
def split_text (tk : Tokzr) (text : String) : List SChunk :=
  if text = "" then []
  else ((tts_split_text tk text).map fun c => SChunk.mk c (tk.encode c).length).filter
    fun c => c.tokens ≤ 450

/-- A concrete instance of the abstract tokenizer for witnesses and
counterexamples: every character is one token (like `cl100k_base`, it
assigns whitespace-only strings at least one token). -/
def charTok : Tokzr :=
  Tokzr.mk (fun s => s.data.map Char.toNat) (fun l => String.mk (l.map Char.ofNat))

/-- One external response to an embedding request, as seen by
`create_embedding`: a success payload (HTTP 200 with the decoded
vectors, one per input text, in input order, per the API contract), a
non-success status code, or a raised `requests` exception. -/
inductive EmbResp (V : Type) where
  | ok (vecs : List V)
  | status (code : Nat)
  | exn
deriving DecidableEq

/-- The retry loop of embed_to_supabase.py lines 133-181, recursing on
the number of remaining loop iterations (`rem = retries - attempt`).
The oracle `resp` gives the response of each attempt; `sleeps` records
the `time.sleep` durations in seconds, in order.  A 429 sleeps
`2 ^ attempt` and retries; a 5xx sleeps only when another attempt
remains and retries; any other non-200 status breaks out of the loop; a
request exception sleeps (when another attempt remains) and retries. -/
def ceGo {V : Type} (resp : Nat → EmbResp V) :
    Nat → Nat → List Nat → Option (List V) × List Nat
  | _, 0, sleeps => (none, sleeps)
  | attempt, rem + 1, sleeps =>
    match resp attempt with
    | .ok vs => (some vs, sleeps)
    | .status c =>
      if c = 429 then ceGo resp (attempt + 1) rem (sleeps ++ [2 ^ attempt])
      else
        if 500 ≤ c then
          if 0 < rem then ceGo resp (attempt + 1) rem (sleeps ++ [2 ^ attempt])
          else ceGo resp (attempt + 1) rem sleeps
        else (none, sleeps)
    | .exn =>
      if 0 < rem then ceGo resp (attempt + 1) rem (sleeps ++ [2 ^ attempt])
      else ceGo resp (attempt + 1) rem sleeps

/-- embed_to_supabase.py lines 108-183, `create_embedding`: empty input
returns an empty vector list at once; otherwise run the retry loop from
attempt 0.  Returns the result and the trace of sleep durations. -/
def create_embedding {V : Type} (resp : Nat → EmbResp V) (texts : List String)
    (retries : Nat) : Option (List V) × List Nat :=
  if texts = [] then (some [], []) else ceGo resp 0 retries []

/-- embed_to_supabase.py lines 372-373: a batch whose embedding call
returned `None` or an empty list counts `len(chunk_batch)` errors. -/
def batchErrors {V : Type} (batch : List String) (res : Option (List V)) : Nat :=
  match res with
  | none => batch.length
  | some [] => batch.length
  | some (_ :: _) => 0

/-- The slicing loop `for j in range(0, len(chunks), BATCH_SIZE)` of
embed_to_supabase.py line 365: successive slices `chunks[j:j+B]`,
fuelled for structural recursion (fuel `=` list length suffices for any
`B > 0`; Python raises on `B = 0`). -/
def batchesGo {α : Type} (B : Nat) : Nat → List α → List (List α)
  | _, [] => []
  | 0, _ :: _ => []
  | fuel + 1, x :: xs => ((x :: xs).take B) :: batchesGo B fuel ((x :: xs).drop B)

/-- The list of embedding-request batches for a chunk list. -/
def batches {α : Type} (B : Nat) (xs : List α) : List (List α) :=
  batchesGo B xs.length xs

/-- The per-batch accounting of embed_to_supabase.py lines 365-392: a
falsy embedding result (`None` or `[]`) adds the batch length to the
error counter and skips the batch; otherwise the batch and its vectors
are kept for upserting.  State: (total_errors, upserted batches). -/
def runBatchesStep {V : Type} (embedOf : List String → Option (List V))
    (st : Nat × List (List String × List V)) (b : List String) :
    Nat × List (List String × List V) :=
  match embedOf b with
  | none => (st.1 + b.length, st.2)
  | some [] => (st.1 + b.length, st.2)
  | some (v :: vs) => (st.1, st.2 ++ [(b, v :: vs)])

/-- The loop over a page's chunk batches (embed_to_supabase.py main). -/
def runBatches {V : Type} (embedOf : List String → Option (List V))
    (bs : List (List String)) : Nat × List (List String × List V) :=
  bs.foldl (runBatchesStep embedOf) (0, [])

/-- The uniqueness key of the pages_chunks table: UNIQUE(url, chunk_idx). -/
abbrev ChunkKey := String × Nat

/-- One row of the pages_chunks table as built by embed_to_supabase.py
lines 380-386 (embedding entries modelled as abstract integers). -/
structure StoredChunk where
  url : String
  chunk_idx : Nat
  content : String
  tokens : Nat
  embedding : List Int
deriving DecidableEq

/-- The conflict key of a row. -/
def chunkKey (r : StoredChunk) : ChunkKey := (r.url, r.chunk_idx)

/-- The external pages_chunks store: a finite map from (url, chunk_idx)
to the stored row, the semantics of the table's UNIQUE(url, chunk_idx)
constraint declared in both scripts' schema. -/
abbrev ChunkStore : Type := Finmap fun _ : ChunkKey => StoredChunk

/-- `upsert_chunks` (embed_to_supabase.py lines 222-267 and
generate_embeddings.py lines 179-209): insert-or-replace each row by
its (url, chunk_idx) key, in order. -/
def upsert_chunks (s : ChunkStore) (rows : List StoredChunk) : ChunkStore :=
  rows.foldl (fun t r => Finmap.insert (chunkKey r) r t) s

/-- The store's total row count (`check_pages_chunks_table`). -/
def storeCount (s : ChunkStore) : Nat :=
  Finmap.entries s |>.card

/-- The last row of `rows` whose key is `k`, if any: the row that wins
after upserting `rows` in order. -/
def lastUpd (k : ChunkKey) : List StoredChunk → Option StoredChunk
  | [] => none
  | r :: rs =>
    match lastUpd k rs with
    | some x => some x
    | none => if chunkKey r = k then some r else none

/-- The rows one page contributes, as built by embed_to_supabase.py
lines 376-386: `chunk_idx = j + k` enumerates the page's kept chunks in
order; `embed` abstracts the vector obtained for a chunk text. -/
def buildRows (url : String) (embed : String → List Int) :
    Nat → List SChunk → List StoredChunk
  | _, [] => []
  | i, c :: cs =>
    StoredChunk.mk url i c.text c.tokens (embed c.text) :: buildRows url embed (i + 1) cs

/-- All rows of one page: chunk, then index and embed each kept chunk. -/
def pageChunkRows (tk : Tokzr) (embed : String → List Int) (url markdown : String) :
    List StoredChunk :=
  buildRows url embed 0 (split_text tk markdown)

/-- A BeautifulSoup node: an element with tag, id attribute, class list
and children, or a text node. -/
inductive HNode where
  | elem (tag : String) (idAttr : Option String) (classes : List String)
      (children : List HNode)
  | text (s : String)

/-- Does `soup.select(".fsNavigation")` match this node? -/
def hasNavClass : HNode → Bool
  | .elem _ _ cls _ => cls.contains "fsNavigation"
  | .text _ => false

mutual

/-- `tag.decompose()` for every `.fsNavigation` element, inside a node
(crawl_hotchkiss.py lines 17-19). -/
def removeNavN : HNode → HNode
  | .elem t i cls ch => .elem t i cls (removeNavL ch)
  | .text s => .text s

/-- `tag.decompose()` for every `.fsNavigation` element, over a forest. -/
def removeNavL : List HNode → List HNode
  | [] => []
  | n :: ns => if hasNavClass n then removeNavL ns else removeNavN n :: removeNavL ns

end

/-- Does `soup.find(tag, id=...)` match this node?  With `id? = none`
the id attribute is unconstrained (as for `soup.body`). -/
def matchesTagId (tag : String) (id? : Option String) : HNode → Bool
  | .elem t i _ _ => t = tag && (id?.isNone || i == id?)
  | .text _ => false

mutual

/-- `find` in document (preorder) order, inside a node. -/
def findN (tag : String) (id? : Option String) : HNode → Option HNode
  | .elem t i cls ch =>
    if matchesTagId tag id? (.elem t i cls ch) then some (.elem t i cls ch)
    else findL tag id? ch
  | .text _ => none

/-- `find` in document (preorder) order, over a forest; the soup-level
`soup.find(tag, id=...)` on a document given as its top-level nodes. -/
def findL (tag : String) (id? : Option String) : List HNode → Option HNode
  | [] => none
  | n :: ns =>
    match findN tag id? n with
    | some m => some m
    | none => findL tag id? ns

end

/-- `node.contents` (children; a text node has none). -/
def nodeChildren : HNode → List HNode
  | .elem _ _ _ ch => ch
  | .text _ => []

/-- crawl_hotchkiss.py lines 13-28, `main_html`: remove `.fsNavigation`
elements, then return the contents of `main#fsPageContent` or else
`div#fsPageContent`, else the contents of `body`, else the raw input
string.  `Sum.inl` carries the selected contents (the source renders
them back to a string), `Sum.inr` the raw input fallback. -/
def main_html (html : String) (doc : List HNode) : List HNode ⊕ String :=
  let d := removeNavL doc
  match Option.orElse (findL "main" (some "fsPageContent") d)
      (fun _ => findL "div" (some "fsPageContent") d) with
  | some m => Sum.inl (nodeChildren m)
  | none =>
    match findL "body" none d with
    | some b => Sum.inl (nodeChildren b)
    | none => Sum.inr html

/-- Modelled from the spec: the prioritized fallback chain "named
content-root element → named content-root container → document body →
entire document, in that order, returning the first that exists", with
the whole raw input emitted when nothing is found. -/
def fallbackChain (html : String) (d : List HNode) : List HNode ⊕ String :=
  match findL "main" (some "fsPageContent") d with
  | some m => Sum.inl (nodeChildren m)
  | none =>
    match findL "div" (some "fsPageContent") d with
    | some v => Sum.inl (nodeChildren v)
    | none =>
      match findL "body" none d with
      | some b => Sum.inl (nodeChildren b)
      | none => Sum.inr html

/-- generate_embeddings.py lines 134-145, `generate_embedding`: the
service call is an oracle that either yields the response's embedding
or raises; any exception is caught and replaced by a 1536-dimensional
zero vector. -/
def generate_embedding (svc : String → Except String (List Int)) (text : String) :
    List Int :=
  match svc text with
  | .ok v => v
  | .error _ => List.replicate 1536 0

/-- One chunk record of generate_embeddings.py lines 165-170. -/
structure ChunkRec where
  url : String
  chunk_idx : Nat
  content : String
  embedding : List Int
deriving DecidableEq

/-- The `for i, chunk in enumerate(chunks)` loop of
generate_embeddings.py lines 160-172. -/
def chunkRecords (url : String) (svc : String → Except String (List Int)) :
    Nat → List String → List ChunkRec
  | _, [] => []
  | i, c :: cs =>
    ChunkRec.mk url i c (generate_embedding svc c) :: chunkRecords url svc (i + 1) cs

/-- generate_embeddings.py lines 147-177, `process_page`: skip pages
with empty or whitespace-only markdown, otherwise chunk and embed. -/
def process_page (tok : String → Nat) (svc : String → Except String (List Int))
    (url markdown : String) : List ChunkRec :=
  if pyStrip markdown = "" then []
  else chunkRecords url svc 0 (split_text_into_chunks tok markdown)

theorem chunkTokens_append_one (tok : String → Nat) (l : List String) (p : String) :
    chunkTokens tok (l ++ [p]) = chunkTokens tok l + tok p := by
  simp [chunkTokens]

theorem chFinish_foldl_flatten (tok : String → Nat) (T M : Nat) :
    ∀ (ps : List String) (st : ChState),
      (chFinish (ps.foldl (chStep tok T M) st)).flatten =
        st.chunks.flatten ++ st.cur ++ ps := by
  intro ps
  induction ps with
  | nil =>
    intro st
    by_cases h : st.cur = [] <;> simp [chFinish, h]
  | cons p ps ih =>
    intro st
    rw [List.foldl_cons, ih]
    have h : (chStep tok T M st p).chunks.flatten ++ (chStep tok T M st p).cur =
        st.chunks.flatten ++ st.cur ++ [p] := by
      simp only [chStep]
      split_ifs <;> simp
    calc (chStep tok T M st p).chunks.flatten ++ (chStep tok T M st p).cur ++ ps
        = ((chStep tok T M st p).chunks.flatten ++ (chStep tok T M st p).cur) ++ ps := by
          simp [List.append_assoc]
      _ = (st.chunks.flatten ++ st.cur ++ [p]) ++ ps := by rw [h]
      _ = st.chunks.flatten ++ st.cur ++ (p :: ps) := by simp [List.append_assoc]

theorem chunkBound_aux (tok : String → Nat) (T M : Nat) (hT : 0 < T) (hTM : T ≤ M) :
    ∀ (ps : List String) (st : ChState),
      st.cnt = chunkTokens tok st.cur →
      st.cnt < T →
      (∀ ch ∈ st.chunks, chunkTokens tok ch ≤ M) →
      (∀ p ∈ ps, tok p ≤ M) →
      ∀ ch ∈ chFinish (ps.foldl (chStep tok T M) st), chunkTokens tok ch ≤ M := by
  intro ps
  induction ps with
  | nil =>
    intro st hcnt hlt hch _ ch hmem
    unfold chFinish at hmem
    by_cases h : st.cur = []
    · simp [h] at hmem
      exact hch ch hmem
    · simp [h] at hmem
      rcases hmem with hm | hm
      · exact hch ch hm
      · subst hm
        exact le_trans (le_of_lt (hcnt ▸ hlt)) hTM
  | cons p ps ih =>
    intro st hcnt hlt hch hps
    have hp : tok p ≤ M := hps p (List.mem_cons_self _ _)
    rw [List.foldl_cons]
    have key : (chStep tok T M st p).cnt = chunkTokens tok (chStep tok T M st p).cur ∧
        (chStep tok T M st p).cnt < T ∧
        (∀ ch ∈ (chStep tok T M st p).chunks, chunkTokens tok ch ≤ M) := by
      have hcurtk : chunkTokens tok st.cur = st.cnt := hcnt.symm
      simp only [chStep]
      split_ifs with h1 h2 h3
      · -- pre-emptive flush, then target flush of the single fresh paragraph
        refine ⟨by simp [chunkTokens], hT, ?_⟩
        intro ch hmem
        simp at hmem
        rcases hmem with hm | hm | hm
        · exact hch ch hm
        · subst hm
          exact le_trans (le_of_lt (hcnt ▸ hlt)) hTM
        · subst hm
          simpa [chunkTokens] using hp
      · -- pre-emptive flush, paragraph kept in the fresh accumulator
        refine ⟨by simp [chunkTokens], by simpa using h2, ?_⟩
        intro ch hmem
        simp at hmem
        rcases hmem with hm | hm
        · exact hch ch hm
        · subst hm
          exact le_trans (le_of_lt (hcnt ▸ hlt)) hTM
      · -- no pre-emptive flush, target flush of the extended accumulator
        have hle : st.cnt + tok p ≤ M := by
          by_cases hc : st.cur = []
          · have : st.cnt = 0 := by rw [hcnt, hc]; rfl
            omega
          · have := h1
            push_neg at this
            exact le_of_not_lt (fun hlt2 => hc (this hlt2))
        refine ⟨by simp [chunkTokens], hT, ?_⟩
        intro ch hmem
        simp at hmem
        rcases hmem with hm | hm
        · exact hch ch hm
        · subst hm
          rw [chunkTokens_append_one, hcurtk]
          exact hle
      · -- nothing flushed: the extended accumulator stays below the target
        refine ⟨by rw [chunkTokens_append_one, hcurtk], by simpa using h3, ?_⟩
        exact hch
    exact ih _ key.1 key.2.1 key.2.2 (fun q hq => hps q (List.mem_cons_of_mem _ hq)) 

/-- C5: for every input text and tokenizer (and in fact every target `T`
and cap `M`), the paragraph-aggregating chunker partitions the paragraph
list: the concatenation of the emitted chunks is exactly the list of
paragraphs of the input, so every paragraph appears whole, in order,
inside exactly one chunk — even when its token count alone exceeds the
target. -/
theorem paragraph_atomicity (tok : String → Nat) (T M : Nat) (text : String) :
    (chunkParas tok T M (paragraphs text)).flatten = paragraphs text := by
  unfold chunkParas
  rw [chFinish_foldl_flatten]
  simp

/-- C9: with target `T = 15` and hard cap `M = 25`, two paragraphs of 10
and 10 tokens are emitted as a single chunk holding both, whose tracked
token count is 20. -/
theorem scenario_a_two_paragraphs (tok : String → Nat) (p q : String)
    (hp : tok p = 10) (hq : tok q = 10) :
    chunkParas tok 15 25 [p, q] = [[p, q]] ∧ chunkTokens tok [p, q] = 20 := by
  constructor
  · simp [chunkParas, chStep, chFinish, hp, hq]
  · simp [chunkTokens, hp, hq]

theorem scenario_a_two_paragraphs_witness :
    String.length "aaaaaaaaaa" = 10 ∧ String.length "bbbbbbbbbb" = 10 ∧
    (chunkParas String.length 15 25 ["aaaaaaaaaa", "bbbbbbbbbb"] =
        [["aaaaaaaaaa", "bbbbbbbbbb"]] ∧
      chunkTokens String.length ["aaaaaaaaaa", "bbbbbbbbbb"] = 20) :=
  ⟨by decide, by decide,
    scenario_a_two_paragraphs String.length "aaaaaaaaaa" "bbbbbbbbbb" (by decide) (by decide)⟩

set_option maxRecDepth 8000 in
/-- C1 counterexample: a single paragraph of 501 tokens (under the
one-token-per-character tokenizer, a 501-character paragraph) is emitted
by `split_text_into_chunks` as one chunk whose token count 501 exceeds
the hard maximum 500: the pre-emptive flush fires only when the
accumulator is non-empty, so an oversized lone paragraph passes through. -/
theorem chunk_cap_counterexample :
    split_text_into_chunks String.length (String.mk (List.replicate 501 'a')) =
      [String.mk (List.replicate 501 'a')] ∧
    500 < String.length (String.mk (List.replicate 501 'a')) := by decide

/-- C1 (amended): every chunk emitted by the token-precise splitter
`split_text` has token count at most 450; and every chunk emitted by
the paragraph-aggregating loop with target 400 and cap 500 has tracked
token count at most 500 provided each individual paragraph has at most
500 tokens (without that proviso an oversized lone paragraph is emitted
as an oversized chunk, see the counterexample). -/
theorem chunk_token_caps :
    (∀ (tk : Tokzr) (text : String), ∀ c ∈ split_text tk text, c.tokens ≤ 450) ∧
    (∀ (tok : String → Nat) (ps : List String), (∀ p ∈ ps, tok p ≤ 500) →
      ∀ ch ∈ chunkParas tok 400 500 ps, chunkTokens tok ch ≤ 500) := by
  constructor
  · intro tk text c hc
    unfold split_text at hc
    split_ifs at hc with h
    · simp at hc
    · have := (List.mem_filter.mp hc).2
      exact of_decide_eq_true this
  · intro tok ps hps ch hmem
    refine chunkBound_aux tok 400 500 (by decide) (by decide) ps (ChState.mk [] [] 0)
      rfl (by decide) ?_ hps ch hmem
    intro ch2 h2
    simp at h2

theorem chunk_token_caps_witness :
    (∀ c ∈ split_text charTok "hello world", c.tokens ≤ 450) ∧
    (∀ p ∈ paragraphs "one\n\ntwo", String.length p ≤ 500) ∧
    (∀ ch ∈ chunkParas String.length 400 500 (paragraphs "one\n\ntwo"),
      chunkTokens String.length ch ≤ 500) :=
  ⟨chunk_token_caps.1 charTok "hello world", by decide,
    chunk_token_caps.2 String.length (paragraphs "one\n\ntwo") (by decide)⟩

/-- C8 counterexample: the one-space string is whitespace-only, yet
`split_text` returns a non-empty chunk list for it — its guard tests
only for the empty string, and the token splitter yields the one-token
chunk `" "`, which passes the 450-token filter. -/
theorem whitespace_only_counterexample :
    " ".data.all pyIsSpace = true ∧ split_text charTok " " = [SChunk.mk " " 1] := by
  decide

/-- C8 (amended): `split_text_into_chunks` returns the empty list for
every empty or whitespace-only input; `split_text` does so only for the
empty string (for whitespace-only non-empty input it returns whatever
the token splitter produces, see the counterexample). -/
theorem empty_input_chunking :
    (∀ (tok : String → Nat) (text : String), text.data.all pyIsSpace = true →
      split_text_into_chunks tok text = []) ∧
    (∀ tk : Tokzr, split_text tk "" = []) := by
  constructor
  · intro tok text h
    have hstrip : pyStrip text = "" := by
      unfold pyStrip pyStripChars
      have hd : text.data.dropWhile pyIsSpace = [] := by
        rw [List.dropWhile_eq_nil_iff]
        intro x hx
        exact List.all_eq_true.mp h x hx
      rw [hd]
      rfl
    simp [split_text_into_chunks, hstrip]
  · intro tk
    simp [split_text]

theorem empty_input_chunking_witness :
    ("  ".data.all pyIsSpace = true) ∧
    split_text_into_chunks String.length "  " = [] ∧ split_text charTok "" = [] :=
  ⟨by decide, empty_input_chunking.1 String.length "  " (by decide),
    empty_input_chunking.2 charTok⟩

theorem batchesGo_flatten {α : Type} (B : Nat) (hB : 0 < B) :
    ∀ (fuel : Nat) (xs : List α), xs.length ≤ fuel →
      (batchesGo B fuel xs).flatten = xs := by
  intro fuel
  induction fuel with
  | zero =>
    intro xs h
    cases xs with
    | nil => simp [batchesGo]
    | cons x l => simp at h
  | succ f ih =>
    intro xs h
    cases xs with
    | nil => simp [batchesGo]
    | cons x l =>
      simp only [batchesGo, List.flatten_cons]
      rw [ih]
      · exact List.take_append_drop B (x :: l)
      · simp only [List.length_drop, List.length_cons]
        simp only [List.length_cons] at h
        omega

theorem batchesGo_size {α : Type} (B : Nat) :
    ∀ (fuel : Nat) (xs : List α), ∀ b ∈ batchesGo B fuel xs, b.length ≤ B := by
  intro fuel
  induction fuel with
  | zero =>
    intro xs b hb
    cases xs with
    | nil => simp [batchesGo] at hb
    | cons x l => simp [batchesGo] at hb
  | succ f ih =>
    intro xs b hb
    cases xs with
    | nil => simp [batchesGo] at hb
    | cons x l =>
      simp only [batchesGo, List.mem_cons] at hb
      rcases hb with hb | hb
      · subst hb
        rw [List.length_take]
        exact min_le_left _ _
      · exact ih _ b hb

theorem batchesGo_count {α : Type} (B : Nat) (hB : 0 < B) :
    ∀ (fuel : Nat) (xs : List α), xs.length ≤ fuel →
      (batchesGo B fuel xs).length = (xs.length + B - 1) / B := by
  intro fuel
  induction fuel with
  | zero =>
    intro xs h
    cases xs with
    | nil => simp [batchesGo, Nat.div_eq_of_lt (show B - 1 < B by omega)]
    | cons x l => simp at h
  | succ f ih =>
    intro xs h
    cases xs with
    | nil => simp [batchesGo, Nat.div_eq_of_lt (show B - 1 < B by omega)]
    | cons x l =>
      simp only [List.length_cons] at h
      have hlen : (List.drop B (x :: l)).length ≤ f := by
        simp only [List.length_drop, List.length_cons]
        omega
      simp only [batchesGo, List.length_cons]
      rw [ih _ hlen]
      simp only [List.length_drop, List.length_cons]
      by_cases hnB : l.length + 1 ≤ B
      · have h1 : l.length + 1 - B = 0 := by omega
        rw [h1]
        have h2 : (0 + B - 1) / B = 0 := Nat.div_eq_of_lt (by omega)
        rw [h2]
        have h3 : l.length + 1 + B - 1 = l.length + B := by omega
        rw [h3, Nat.add_div_right _ hB]
        have h4 : l.length / B = 0 := Nat.div_eq_of_lt (by omega)
        rw [h4]
      · have h5 : l.length + 1 - B + B - 1 = l.length := by omega
        have h3 : l.length + 1 + B - 1 = l.length + B := by omega
        rw [h5, h3, Nat.add_div_right _ hB]

theorem flatten_map_map {α β : Type} (f : α → β) :
    ∀ L : List (List α), (L.map (List.map f)).flatten = L.flatten.map f := by
  intro L
  induction L with
  | nil => simp
  | cons a L ih => simp only [List.map_cons, List.flatten_cons, List.map_append, ih]

/-- C3: embedding `N` chunk texts with batch size `B > 0` issues exactly
`⌈N/B⌉` requests; each request holds at most `B` texts; the batches,
concatenated in submission order, are exactly the input texts in order;
for a service that answers each batch with one vector per text in input
order, the per-batch results correspond 1:1 and in order to the batch's
texts; and a batch whose first attempt succeeds returns exactly that
payload with no retries or sleeps. -/
theorem embed_batching (V : Type) (svc : String → V) (B : Nat) (xs : List String)
    (hB : 0 < B) :
    (batches B xs).length = (xs.length + B - 1) / B ∧
    (∀ b ∈ batches B xs, b.length ≤ B) ∧
    (batches B xs).flatten = xs ∧
    ((batches B xs).map (List.map svc)).flatten = xs.map svc ∧
    (∀ (R : Nat), 0 < R → ∀ b : List String,
      create_embedding (fun _ => EmbResp.ok (b.map svc)) b R = (some (b.map svc), [])) := by
  refine ⟨batchesGo_count B hB xs.length xs le_rfl,
    fun b hb => batchesGo_size B xs.length xs b hb,
    batchesGo_flatten B hB xs.length xs le_rfl, ?_, ?_⟩
  · unfold batches
    rw [flatten_map_map, batchesGo_flatten B hB xs.length xs le_rfl]
  · intro R hR b
    cases b with
    | nil => simp [create_embedding]
    | cons t ts =>
      obtain ⟨r, rfl⟩ := Nat.exists_eq_add_of_lt hR
      simp [create_embedding, ceGo]

theorem embed_batching_witness :
    0 < 2 ∧
    ((batches 2 ["a", "b", "c"]).length = (3 + 2 - 1) / 2 ∧
      (∀ b ∈ batches 2 ["a", "b", "c"], b.length ≤ 2) ∧
      (batches 2 ["a", "b", "c"]).flatten = ["a", "b", "c"] ∧
      ((batches 2 ["a", "b", "c"]).map (List.map String.length)).flatten =
        ["a", "b", "c"].map String.length ∧
      (∀ (R : Nat), 0 < R → ∀ b : List String,
        create_embedding (fun _ => EmbResp.ok (b.map String.length)) b R =
          (some (b.map String.length), []))) :=
  ⟨by decide, embed_batching Nat String.length 2 ["a", "b", "c"] (by decide)⟩

/-- C4 counterexample: a batch call that gets a 429 on attempt 0 and
succeeds on attempt 1 sleeps exactly `2 ^ 0 = 1` second before the
retry — strictly less than the 2 seconds the claim requires. -/
theorem retry_wait_counterexample :
    create_embedding
        (fun a => if a = 0 then EmbResp.status 429 else EmbResp.ok [[(7 : Int)]])
        ["t"] 3 = (some [[(7 : Int)]], [1]) ∧
    List.sum [1] < 2 := by decide

/-- C4 (amended): a batch call receiving a rate-limit response on
attempt 0 and succeeding on attempt 1 sleeps exactly `2 ^ attempt` with
`attempt = 0`, i.e. 1 second (not at least 2), before the retry; it
returns the attempt-1 response's vectors; and a non-empty vector result
contributes zero to the run's error counter. -/
theorem retry_after_rate_limit (V : Type) (resp : Nat → EmbResp V) (vs : List V)
    (texts : List String) (R : Nat) (ht : texts ≠ [])
    (h0 : resp 0 = EmbResp.status 429) (h1 : resp 1 = EmbResp.ok vs) (hR : 2 ≤ R) :
    create_embedding resp texts R = (some vs, [2 ^ 0]) ∧
    (vs ≠ [] → ∀ b : List String, batchErrors b (some vs) = 0) := by
  obtain ⟨r, rfl⟩ := Nat.exists_eq_add_of_le hR
  constructor
  · have h2 : 2 + r = r + 1 + 1 := by omega
    rw [h2]
    simp [create_embedding, ht, ceGo, h0, h1]
  · intro hvs b
    cases vs with
    | nil => exact absurd rfl hvs
    | cons v vt => rfl

theorem retry_after_rate_limit_witness :
    (["x"] : List String) ≠ [] ∧
    (create_embedding
        (fun a => if a = 0 then EmbResp.status 429 else EmbResp.ok [[(3 : Int)]])
        ["x"] 3 = (some [[(3 : Int)]], [2 ^ 0]) ∧
      ([[(3 : Int)]] ≠ ([] : List (List Int)) →
        ∀ b : List String, batchErrors b (some [[(3 : Int)]]) = 0)) :=
  ⟨by decide,
    retry_after_rate_limit (List Int)
      (fun a => if a = 0 then EmbResp.status 429 else EmbResp.ok [[(3 : Int)]])
      [[(3 : Int)]] ["x"] 3 (by decide) rfl rfl (by decide)⟩

theorem runBatches_shift {V : Type} (f : List String → Option (List V)) :
    ∀ (bs : List (List String)) (e : Nat) (d : List (List String × List V)),
      bs.foldl (runBatchesStep f) (e, d) =
        (e + (runBatches f bs).1, d ++ (runBatches f bs).2) := by
  intro bs
  induction bs with
  | nil =>
    intro e d
    simp [runBatches]
  | cons b bs ih =>
    intro e d
    simp only [runBatches, List.foldl_cons]
    cases hfb : f b with
    | none =>
      simp only [runBatchesStep, hfb]
      rw [ih, ih]
      simp [Nat.add_assoc]
    | some vs =>
      cases vs with
      | nil =>
        simp only [runBatchesStep, hfb]
        rw [ih, ih]
        simp [Nat.add_assoc]
      | cons v vt =>
        simp only [runBatchesStep, hfb]
        rw [ih, ih]
        simp

/-- C6: a response with a client-error status other than 429 makes
`create_embedding` stop at once — from any attempt with retries left,
the loop returns failure with no further attempt and no sleep — and in
the driver loop a failed batch adds its length to the run's error total
while every later batch is still processed. -/
theorem client_error_no_retry (V : Type) :
    (∀ (resp : Nat → EmbResp V) (k rem : Nat) (sleeps : List Nat) (c : Nat),
      400 ≤ c → c < 500 → c ≠ 429 → resp k = EmbResp.status c →
      ceGo resp k (rem + 1) sleeps = (none, sleeps)) ∧
    (∀ (resp : Nat → EmbResp V) (texts : List String) (R c : Nat),
      texts ≠ [] → 0 < R → 400 ≤ c → c < 500 → c ≠ 429 → resp 0 = EmbResp.status c →
      create_embedding resp texts R = (none, [])) ∧
    (∀ (f : List String → Option (List V)) (bs1 : List (List String))
      (b : List String) (bs2 : List (List String)), f b = none →
      runBatches f (bs1 ++ b :: bs2) =
        ((runBatches f bs1).1 + b.length + (runBatches f bs2).1,
          (runBatches f bs1).2 ++ (runBatches f bs2).2)) := by
  have habort : ∀ (resp : Nat → EmbResp V) (k rem : Nat) (sleeps : List Nat) (c : Nat),
      400 ≤ c → c < 500 → c ≠ 429 → resp k = EmbResp.status c →
      ceGo resp k (rem + 1) sleeps = (none, sleeps) := by
    intro resp k rem sleeps c h4 h5 h429 hk
    have h500 : ¬ 500 ≤ c := Nat.not_le.mpr h5
    simp [ceGo, hk, h429, h500]
  refine ⟨habort, ?_, ?_⟩
  · intro resp texts R c ht hR h4 h5 h429 h0
    obtain ⟨r, rfl⟩ := Nat.exists_eq_add_of_lt hR
    have h01 : 0 + r + 1 = r + 1 := by omega
    rw [h01]
    simp only [create_embedding, if_neg ht]
    exact habort resp 0 r [] c h4 h5 h429 h0
  · intro f bs1 b bs2 hfb
    simp only [runBatches, List.foldl_append, List.foldl_cons]
    rw [runBatches_shift f bs1 0 []]
    simp only [runBatchesStep, hfb, runBatches]
    rw [runBatches_shift f bs2]
    simp [runBatches]

theorem client_error_no_retry_witness :
    (400 ≤ 404 ∧ 404 < 500 ∧ 404 ≠ 429) ∧
    ceGo (fun _ => (EmbResp.status 404 : EmbResp (List Int))) 0 (2 + 1) [] = (none, []) ∧
    create_embedding (fun _ => (EmbResp.status 404 : EmbResp (List Int))) ["t"] 3 =
      (none, []) ∧
    runBatches (fun b => if b = ["bad"] then none else some [[(1 : Int)]])
        ([["g1"]] ++ ["bad"] :: [["g2"]]) =
      ((runBatches (fun b => if b = ["bad"] then none else some [[(1 : Int)]]) [["g1"]]).1 +
          (["bad"] : List String).length +
          (runBatches (fun b => if b = ["bad"] then none else some [[(1 : Int)]]) [["g2"]]).1,
        (runBatches (fun b => if b = ["bad"] then none else some [[(1 : Int)]]) [["g1"]]).2 ++
          (runBatches (fun b => if b = ["bad"] then none else some [[(1 : Int)]]) [["g2"]]).2) :=
  ⟨by decide,
    (client_error_no_retry (List Int)).1 (fun _ => EmbResp.status 404) 0 2 [] 404
      (by decide) (by decide) (by decide) rfl,
    (client_error_no_retry (List Int)).2.1 (fun _ => EmbResp.status 404) ["t"] 3 404
      (by decide) (by decide) (by decide) (by decide) (by decide) rfl,
    (client_error_no_retry (List Int)).2.2 (fun b => if b = ["bad"] then none else some [[(1 : Int)]])
      [["g1"]] ["bad"] [["g2"]] (by decide)⟩

theorem lookup_upsert_chunks :
    ∀ (rows : List StoredChunk) (s : ChunkStore) (k : ChunkKey),
      (upsert_chunks s rows).lookup k = (lastUpd k rows).or (s.lookup k) := by
  intro rows
  induction rows with
  | nil =>
    intro s k
    simp [upsert_chunks, lastUpd]
  | cons r rs ih =>
    intro s k
    simp only [upsert_chunks, List.foldl_cons] at *
    rw [ih]
    cases hl : lastUpd k rs with
    | some x => simp [lastUpd, hl]
    | none =>
      simp only [lastUpd, hl, Option.none_or]
      by_cases hk : chunkKey r = k
      · subst hk
        simp [Finmap.lookup_insert]
      · rw [Finmap.lookup_insert_of_ne _ (fun h => hk h.symm)]
        simp [hk]

theorem buildRows_shape (url : String) (e1 e2 : String → List Int) :
    ∀ (cs : List SChunk) (i : Nat),
      (buildRows url e1 i cs).map (fun r => (r.chunk_idx, r.content)) =
          (buildRows url e2 i cs).map (fun r => (r.chunk_idx, r.content)) ∧
        (buildRows url e1 i cs).length = (buildRows url e2 i cs).length := by
  intro cs
  induction cs with
  | nil => intro i; exact ⟨rfl, rfl⟩
  | cons c cs ih =>
    intro i
    refine ⟨?_, ?_⟩
    · simp [buildRows, (ih (i + 1)).1]
    · simp [buildRows, (ih (i + 1)).2]

/-- C2: upserting a row list keyed on (url, chunk_idx) into the store a
second time changes nothing: the store after the second call equals the
store after the first, so in particular the total row count is
unchanged; and re-running the chunking on byte-identical page content
yields the same chunk count and the same (chunk_idx, content) pairs even
if the embedding service answers differently between the runs. -/
theorem upsert_idempotent (s : ChunkStore) (rows : List StoredChunk) (tk : Tokzr)
    (e1 e2 : String → List Int) (url md : String) :
    upsert_chunks (upsert_chunks s rows) rows = upsert_chunks s rows ∧
    storeCount (upsert_chunks (upsert_chunks s rows) rows) =
      storeCount (upsert_chunks s rows) ∧
    (pageChunkRows tk e1 url md).map (fun r => (r.chunk_idx, r.content)) =
      (pageChunkRows tk e2 url md).map (fun r => (r.chunk_idx, r.content)) ∧
    (pageChunkRows tk e1 url md).length = (pageChunkRows tk e2 url md).length := by
  have hidem : upsert_chunks (upsert_chunks s rows) rows = upsert_chunks s rows := by
    apply Finmap.ext_lookup
    intro k
    rw [lookup_upsert_chunks, lookup_upsert_chunks]
    cases h : lastUpd k rows <;> simp [h]
  exact ⟨hidem, congrArg storeCount hidem,
    (buildRows_shape url e1 e2 (split_text tk md) 0).1,
    (buildRows_shape url e1 e2 (split_text tk md) 0).2⟩

/-- C7: `main_html` is a total function (extraction never raises to the
caller) that realizes the prioritized fallback chain on the document
with the `.fsNavigation` boilerplate removed: the contents of the first
of `main#fsPageContent`, `div#fsPageContent`, `body` that exists, and
the whole raw input string when none of them does. -/
theorem main_html_chain (html : String) (doc : List HNode) :
    main_html html doc = fallbackChain html (removeNavL doc) ∧
    (findL "main" (some "fsPageContent") (removeNavL doc) = none →
      findL "div" (some "fsPageContent") (removeNavL doc) = none →
      findL "body" none (removeNavL doc) = none →
      main_html html doc = Sum.inr html) := by
  have hchain : main_html html doc = fallbackChain html (removeNavL doc) := by
    unfold main_html fallbackChain
    cases hm : findL "main" (some "fsPageContent") (removeNavL doc) with
    | some m => simp [Option.orElse, hm]
    | none =>
      cases hd : findL "div" (some "fsPageContent") (removeNavL doc) with
      | some v => simp [Option.orElse, hm, hd]
      | none => simp [Option.orElse, hm, hd]
  refine ⟨hchain, ?_⟩
  intro h1 h2 h3
  rw [hchain]
  unfold fallbackChain
  rw [h1, h2, h3]

theorem main_html_chain_witness :
    (findL "main" (some "fsPageContent") (removeNavL []) = none ∧
      findL "div" (some "fsPageContent") (removeNavL []) = none ∧
      findL "body" none (removeNavL []) = none) ∧
    main_html "<p>raw page</p>" [] = Sum.inr "<p>raw page</p>" :=
  ⟨⟨by simp [removeNavL, findL], by simp [removeNavL, findL], by simp [removeNavL, findL]⟩,
    (main_html_chain "<p>raw page</p>" []).2 (by simp [removeNavL, findL])
      (by simp [removeNavL, findL]) (by simp [removeNavL, findL])⟩

theorem chunkRecords_length (url : String) (svc : String → Except String (List Int)) :
    ∀ (cs : List String) (i : Nat), (chunkRecords url svc i cs).length = cs.length := by
  intro cs
  induction cs with
  | nil => intro i; rfl
  | cons c cs ih => intro i; simp [chunkRecords, ih (i + 1)]

theorem chunkRecords_getElem (url : String) (svc : String → Except String (List Int)) :
    ∀ (cs : List String) (j i : Nat),
      (chunkRecords url svc j cs)[i]? =
        cs[i]?.map fun c => ChunkRec.mk url (j + i) c (generate_embedding svc c) := by
  intro cs
  induction cs with
  | nil => intro j i; simp [chunkRecords]
  | cons c cs ih =>
    intro j i
    cases i with
    | zero => simp [chunkRecords]
    | succ i =>
      simp only [chunkRecords, List.getElem?_cons_succ, ih (j + 1) i]
      have h : j + (i + 1) = j + 1 + i := by omega
      rw [h]

/-- C10: when the embedding service call for a chunk raises,
`generate_embedding` returns the 1536-element all-zero vector instead of
signalling failure; `process_page` still emits one record per chunk (so
the failure leaves no trace in the record list that feeds the upsert and
its success/error counters), and the record of a failing chunk carries
exactly the zero vector. -/
theorem zero_vector_fallback (tok : String → Nat)
    (svc : String → Except String (List Int)) (url md : String) :
    (∀ t msg, svc t = Except.error msg →
      generate_embedding svc t = List.replicate 1536 0) ∧
    (pyStrip md ≠ "" →
      (process_page tok svc url md).length = (split_text_into_chunks tok md).length) ∧
    (∀ (i : Nat) (c msg : String), pyStrip md ≠ "" →
      (split_text_into_chunks tok md)[i]? = some c → svc c = Except.error msg →
      (process_page tok svc url md)[i]? =
        some (ChunkRec.mk url i c (List.replicate 1536 0))) := by
  refine ⟨?_, ?_, ?_⟩
  · intro t msg h
    simp [generate_embedding, h]
  · intro h
    simp [process_page, h, chunkRecords_length]
  · intro i c msg hmd hc hsvc
    simp only [process_page, if_neg hmd]
    rw [chunkRecords_getElem, hc]
    simp only [Option.map_some', generate_embedding, hsvc, Nat.zero_add]

theorem zero_vector_fallback_witness :
    pyStrip "hello" ≠ "" ∧
    (split_text_into_chunks String.length "hello")[0]? = some "hello" ∧
    (process_page String.length (fun _ => Except.error "boom") "u" "hello")[0]? =
      some (ChunkRec.mk "u" 0 "hello" (List.replicate 1536 0)) :=
  ⟨by decide, by decide,
    (zero_vector_fallback String.length (fun _ => Except.error "boom") "u" "hello").2.2
      0 "hello" "boom" (by decide) (by decide) rfl⟩
